import Mathlib

/-!
# Verification of the rally driver core (`esrally/driver/driver.py`)

A shallow embedding of the driver's data model and operations:

* the `Allocator` (allocation matrix with join points),
* the iteration-count schedule generator (`iteration_count_based`, `schedule_for`),
* the `Sampler` bounded queue,
* the `Executor` per-iteration timing computation,
* the coordinator's `Driver.joinpoint_reached` step,
* the worker's (`LoadGenerator`) handling of `CompleteCurrentTask`.

Machine real times (`time.perf_counter()`, `time.time()`) are modelled as
rationals supplied as explicit parameters; clock monotonicity and the lower
bound guaranteed by `time.sleep` appear as hypotheses where needed.
-/

namespace Rally

/-- Modelled from the spec: `metrics.SampleType` lives in the metrics module,
which is not part of the driver sources; the spec says
`kind ∈ {Warmup, Normal}`. -/
inductive SampleType where
  | Warmup : SampleType
  | Normal : SampleType
deriving DecidableEq

/-- Modelled from the spec: `track.Task` lives in the track module, which is
not part of the driver sources; the spec describes a Task as an operation with
`clients` (degree of parallelism), either `warmup_iterations + iterations` or
`warmup_time_period + time_period`, and a `completes_parent` flag.  An `id`
stands in for the task's identity (distinct tasks have distinct ids). -/
structure Task where
  id : Nat
  clients : Nat
  completesParent : Bool
  warmupIterations : Nat
  iterations : Nat
  warmupTimePeriod : Option ℚ
  timePeriod : Option ℚ
deriving DecidableEq

/-- `JoinPoint` from `driver.py`: a barrier with an id and the list of client
indices that execute a task which completes its parent parallel structure. -/
structure JoinPoint where
  id : Nat
  clientsExecutingCompletingTask : List Nat
deriving DecidableEq

/-- `JoinPoint.preceding_task_completes_parent`:
`num_clients_executing_completing_task > 0`. -/
def JoinPoint.precedingTaskCompletesParent (jp : JoinPoint) : Bool :=
  jp.clientsExecutingCompletingTask.length > 0

/-- One cell of the allocation matrix: a task, a join point, or `None`
(an idle filler cell inserted to keep the matrix rectangular). -/
inductive Cell where
  | task : Task → Cell
  | joinPoint : JoinPoint → Cell
  | idle : Cell
deriving DecidableEq

/-!
## Allocator

The driver iterates the challenge schedule: each element is a parallel group
(`track.Parallel`, or a single bare `track.Task`, which iterates as a
one-element group).  We embed a schedule as `List (List Task)`: the list of
groups, each group the list of its sub-tasks.
-/

/-- Modelled from the spec: the `clients` property of a schedule element
(`track.Parallel`) is defined in the track model, which is not part of the
driver sources.  The spec prescribes "Compute `N = max task.clients` across
all sub-tasks", so a group's `clients` is the maximum of its sub-tasks'
`clients` (for a bare task, the task's own `clients`). -/
def groupClients (g : List Task) : Nat :=
  g.foldl (fun m t => max m t.clients) 0

/-- `Allocator.clients`: `max_clients = 1`, then folded `max` of each schedule
element's `clients` over the schedule. -/
def allocatorClients (schedule : List (List Task)) : Nat :=
  schedule.foldl (fun m g => max m (groupClients g)) 1

/-- `allocations[k].append(c)`: append a cell to row `k` of the matrix,
leaving all other rows (and a matrix with no row `k`) unchanged. -/
def appendAt (k : Nat) (c : Cell) : List (List Cell) → List (List Cell)
  | [] => []
  | row :: rest =>
    match k with
    | 0 => (row ++ [c]) :: rest
    | k' + 1 => row :: appendAt k' c rest

/-- The nested loop `for sub_task in task: for client_index in
range(start_client_index, start_client_index + sub_task.clients)`, flattened
into the ordered list of `(sub_task, client_index)` pairs it enumerates
(client indices before the `% max_clients` reduction). -/
def groupPlacements (cursor : Nat) : List Task → List (Task × Nat)
  | [] => []
  | t :: ts =>
    (List.range' cursor t.clients).map (fun k => (t, k)) ++
      groupPlacements (cursor + t.clients) ts

/-- The value of `start_client_index` after a group's sub-task loop:
the sum of the group's sub-tasks' `clients`. -/
def taskSum (g : List Task) : Nat :=
  (g.map (fun t => t.clients)).sum

/-- The matrix appends performed by the sub-task loop:
`allocations[client_index % max_clients].append(sub_task)` for each
enumerated placement, in order. -/
def placeAll (N : Nat) (ps : List (Task × Nat)) (m : List (List Cell)) :
    List (List Cell) :=
  ps.foldl (fun acc p => appendAt (p.2 % N) (Cell.task p.1) acc) m

/-- Helper for `idleFill`: append an idle cell to every row of index
`≥ start`, where `r` is the index of the first row of the argument. -/
def idleFillAux (start : Nat) (r : Nat) : List (List Cell) → List (List Cell)
  | [] => []
  | row :: rest =>
    (if start ≤ r then row ++ [Cell.idle] else row) :: idleFillAux start (r + 1) rest

/-- `for client_index in range(start_client_index, max_clients):
allocations[client_index].append(None)` — the matrix always has exactly
`max_clients` rows when this runs, so it appends an idle cell to every row of
index `≥ start`. -/
def idleFill (start : Nat) (m : List (List Cell)) : List (List Cell) :=
  idleFillAux start 0 m

/-- The join point created after a group: `JoinPoint(join_point_id,
clients_executing_completing_task)`, where the completing-client list collects
`client_index % max_clients` for each placement of a sub-task with
`completes_parent`, in placement order. -/
def groupJoinPoint (N : Nat) (jpId : Nat) (g : List Task) : JoinPoint :=
  ⟨jpId, (groupPlacements 0 g).filterMap
    (fun p => if p.1.completesParent then some (p.2 % N) else none)⟩

/-- The body of `Allocator.allocations`' loop for one schedule element:
place all sub-tasks, pad with idle cells when `start_client_index %
max_clients > 0`, then append the group's join point to every row. -/
def allocGroup (N : Nat) (jpId : Nat) (g : List Task) (m : List (List Cell)) :
    List (List Cell) :=
  (if taskSum g % N > 0
    then idleFill (taskSum g % N) (placeAll N (groupPlacements 0 g) m)
    else placeAll N (groupPlacements 0 g) m).map
    (fun row => row ++ [Cell.joinPoint (groupJoinPoint N jpId g)])

/-- `Allocator.allocations`: start with `max_clients` rows each holding the
initial `JoinPoint(0)`, then process each schedule element in turn with an
increasing join-point id. -/
def allocations (schedule : List (List Task)) : List (List Cell) :=
  let N := allocatorClients schedule
  let init : List (List Cell) := List.replicate N [Cell.joinPoint ⟨0, []⟩]
  (schedule.foldl (fun acc g => (allocGroup N acc.2 g acc.1, acc.2 + 1))
    (init, 1)).1

/-!
### Allocator lemmas
-/

/-- The cells that the placement loop appends to row `r`. -/
def rowCells (N : Nat) (r : Nat) (ps : List (Task × Nat)) : List Cell :=
  ps.filterMap (fun p => if p.2 % N = r then some (Cell.task p.1) else none)

theorem appendAt_getElem? (k : Nat) (c : Cell) (m : List (List Cell)) (r : Nat) :
    (appendAt k c m)[r]? = if r = k then (m[r]?).map (fun row => row ++ [c]) else m[r]? := by
  induction m generalizing k r with
  | nil => simp [appendAt]
  | cons row rest ih =>
    cases k with
    | zero =>
      cases r with
      | zero => simp [appendAt]
      | succ r' => simp [appendAt]
    | succ k' =>
      cases r with
      | zero => simp [appendAt]
      | succ r' => simpa [appendAt] using ih k' r'

theorem appendAt_length (k : Nat) (c : Cell) (m : List (List Cell)) :
    (appendAt k c m).length = m.length := by
  induction m generalizing k with
  | nil => simp [appendAt]
  | cons row rest ih =>
    cases k with
    | zero => simp [appendAt]
    | succ k' => simpa [appendAt] using ih k'

theorem rowCells_cons (N r : Nat) (p : Task × Nat) (ps : List (Task × Nat)) :
    rowCells N r (p :: ps) =
      (if p.2 % N = r then [Cell.task p.1] else []) ++ rowCells N r ps := by
  by_cases h : p.2 % N = r <;> simp [rowCells, List.filterMap_cons, h]

theorem placeAll_getElem? (N : Nat) (ps : List (Task × Nat)) (m : List (List Cell)) (r : Nat) :
    (placeAll N ps m)[r]? = (m[r]?).map (fun row => row ++ rowCells N r ps) := by
  induction ps generalizing m with
  | nil =>
    show m[r]? = _
    cases m[r]? <;> simp [rowCells]
  | cons p ps ih =>
    show (placeAll N ps (appendAt (p.2 % N) (Cell.task p.1) m))[r]? = _
    rw [ih, appendAt_getElem?, rowCells_cons]
    by_cases h : r = p.2 % N
    · have h' : p.2 % N = r := h.symm
      rw [if_pos h, if_pos h']
      cases m[r]? <;> simp
    · have h' : ¬ (p.2 % N = r) := fun hh => h hh.symm
      rw [if_neg h, if_neg h']
      cases m[r]? <;> simp

theorem placeAll_length (N : Nat) (ps : List (Task × Nat)) (m : List (List Cell)) :
    (placeAll N ps m).length = m.length := by
  induction ps generalizing m with
  | nil => rfl
  | cons p ps ih =>
    show (placeAll N ps (appendAt (p.2 % N) (Cell.task p.1) m)).length = _
    rw [ih, appendAt_length]

theorem idleFillAux_getElem? (start : Nat) (r j : Nat) (m : List (List Cell)) :
    (idleFillAux start r m)[j]? =
      (m[j]?).map (fun row => if start ≤ r + j then row ++ [Cell.idle] else row) := by
  induction m generalizing r j with
  | nil => simp [idleFillAux]
  | cons row rest ih =>
    cases j with
    | zero => simp [idleFillAux]
    | succ j' =>
      have := ih (r + 1) j'
      simpa [idleFillAux, Nat.add_assoc, Nat.add_comm 1 j'] using this

theorem idleFillAux_length (start : Nat) (r : Nat) (m : List (List Cell)) :
    (idleFillAux start r m).length = m.length := by
  induction m generalizing r with
  | nil => rfl
  | cons row rest ih => simpa [idleFillAux] using ih (r + 1)

/-- The per-row block a group contributes before its closing join point:
the task cells placed on row `r`, then an idle filler when the group's client
total leaves rows `≥ start_client_index % max_clients` unused. -/
def groupRow (N : Nat) (g : List Task) (r : Nat) : List Cell :=
  rowCells N r (groupPlacements 0 g) ++
    (if taskSum g % N > 0 ∧ taskSum g % N ≤ r then [Cell.idle] else [])

theorem allocGroup_getElem? (N jpId : Nat) (g : List Task) (m : List (List Cell)) (r : Nat) :
    (allocGroup N jpId g m)[r]? =
      (m[r]?).map (fun row =>
        row ++ groupRow N g r ++ [Cell.joinPoint (groupJoinPoint N jpId g)]) := by
  unfold allocGroup idleFill
  by_cases hs : taskSum g % N > 0
  · rw [if_pos hs, List.getElem?_map, idleFillAux_getElem?, placeAll_getElem?]
    cases m[r]? with
    | none => simp
    | some row =>
      by_cases hr : taskSum g % N ≤ r <;>
        simp [groupRow, hs, hr, List.append_assoc]
  · rw [if_neg hs, List.getElem?_map, placeAll_getElem?]
    cases m[r]? with
    | none => simp
    | some row => simp [groupRow, hs, List.append_assoc]

theorem allocGroup_length (N jpId : Nat) (g : List Task) (m : List (List Cell)) :
    (allocGroup N jpId g m).length = m.length := by
  unfold allocGroup
  by_cases hs : taskSum g % N > 0 <;>
    simp [hs, idleFill, idleFillAux_length, placeAll_length]

/-- How many of the indices in a list fall on row `r` after reduction
modulo `N`. -/
def modCountL (N r : Nat) : List Nat → Nat
  | [] => 0
  | k :: ks => (if k % N = r then 1 else 0) + modCountL N r ks

theorem modCountL_append (N r : Nat) (a b : List Nat) :
    modCountL N r (a ++ b) = modCountL N r a + modCountL N r b := by
  induction a with
  | nil => simp [modCountL]
  | cons k ks ih => simp [modCountL, ih, Nat.add_assoc]

theorem rowCells_length (N r : Nat) (ps : List (Task × Nat)) :
    (rowCells N r ps).length = modCountL N r (ps.map (fun p => p.2)) := by
  induction ps with
  | nil => simp [rowCells, modCountL]
  | cons p ps ih =>
    rw [rowCells_cons]
    by_cases h : p.2 % N = r <;> simp [h, modCountL, ih, Nat.add_comm]

theorem groupPlacements_map_snd (g : List Task) : ∀ cursor : Nat,
    (groupPlacements cursor g).map (fun p => p.2) = List.range' cursor (taskSum g) := by
  induction g with
  | nil => intro cursor; simp [groupPlacements, taskSum]
  | cons t ts ih =>
    intro cursor
    have happ := List.range'_append cursor t.clients (taskSum ts) 1
    simp only [Nat.mul_one, Nat.one_mul] at happ
    rw [groupPlacements, List.map_append, List.map_map, ih (cursor + t.clients)]
    have hcomp : ((fun p : Task × Nat => p.2) ∘ fun k => (t, k)) = id := rfl
    rw [hcomp, List.map_id, happ]
    simp [taskSum, Nat.add_comm]

theorem modCountL_range' (N r : Nat) (hN : 0 < N) (hr : r < N) : ∀ S : Nat,
    modCountL N r (List.range' 0 S) = S / N + if r < S % N then 1 else 0 := by
  intro S
  induction S with
  | zero => simp [modCountL]
  | succ S ih =>
    have hconcat : List.range' 0 (S + 1) = List.range' 0 S ++ [S] := by
      have := @List.range'_concat 1 0 S
      simpa using this
    rw [hconcat, modCountL_append, ih]
    have hm : S % N < N := Nat.mod_lt _ hN
    have hdm : N * (S / N) + S % N = S := Nat.div_add_mod S N
    rcases Nat.lt_or_ge (S % N + 1) N with hlt | hge
    · -- S + 1 = (S % N + 1) + N * (S / N), and S % N + 1 < N
      have hdiv : (S + 1) / N = S / N := by
        have : S + 1 = (S % N + 1) + N * (S / N) := by omega
        rw [this, Nat.add_mul_div_left _ _ hN, Nat.div_eq_of_lt hlt, Nat.zero_add]
      have hmod : (S + 1) % N = S % N + 1 := by
        have : S + 1 = (S % N + 1) + N * (S / N) := by omega
        rw [this, Nat.add_mul_mod_self_left, Nat.mod_eq_of_lt hlt]
      rw [hdiv, hmod]
      simp only [modCountL]
      by_cases h1 : S % N = r <;> by_cases h2 : r < S % N <;>
        by_cases h3 : r < S % N + 1 <;> simp [h1, h2, h3] <;> omega
    · -- S % N + 1 = N, so S + 1 is an exact multiple of N
      have heq : S % N + 1 = N := by omega
      have hmul : N * (S / N + 1) = N * (S / N) + N := Nat.mul_succ N (S / N)
      have hdiv : (S + 1) / N = S / N + 1 := by
        have : S + 1 = N * (S / N + 1) := by omega
        rw [this, Nat.mul_div_cancel_left _ hN]
      have hmod : (S + 1) % N = 0 := by
        have : S + 1 = N * (S / N + 1) := by omega
        rw [this, Nat.mul_mod_right]
      rw [hdiv, hmod]
      simp only [modCountL]
      by_cases h1 : S % N = r <;> by_cases h2 : r < S % N <;>
        (simp [h1, h2]; try omega)

/-- The number of cells a group appends to each row before the closing join
point: the same for every row, making the matrix rectangular. -/
def groupBlockLen (N : Nat) (g : List Task) : Nat :=
  taskSum g / N + (if taskSum g % N > 0 then 1 else 0)

theorem groupRow_length (N : Nat) (g : List Task) (r : Nat) (hN : 0 < N) (hr : r < N) :
    (groupRow N g r).length = groupBlockLen N g := by
  unfold groupRow groupBlockLen
  rw [List.length_append, rowCells_length, groupPlacements_map_snd,
    modCountL_range' N r hN hr]
  have hm : taskSum g % N < N := Nat.mod_lt _ hN
  by_cases h1 : taskSum g % N > 0 <;> by_cases h2 : r < taskSum g % N <;>
    by_cases h3 : taskSum g % N ≤ r <;> simp [h1, h2, h3] <;> omega

theorem groupRow_no_joinPoint (N : Nat) (g : List Task) (r : Nat) :
    ∀ c ∈ groupRow N g r, ∀ jp : JoinPoint, c ≠ Cell.joinPoint jp := by
  intro c hc jp
  unfold groupRow at hc
  rcases List.mem_append.mp hc with h | h
  · rcases List.mem_filterMap.mp h with ⟨p, _, hp⟩
    by_cases hcond : p.2 % N = r
    · rw [if_pos hcond] at hp
      cases hp
      simp
    · rw [if_neg hcond] at hp
      cases hp
  · by_cases hcond : taskSum g % N > 0 ∧ taskSum g % N ≤ r
    · rw [if_pos hcond] at h
      rcases List.mem_singleton.mp h with rfl
      simp
    · rw [if_neg hcond] at h
      cases h

/-- Every row of the matrix has length `L`. -/
def sameRowLengths (m : List (List Cell)) (L : Nat) : Prop :=
  ∀ row ∈ m, row.length = L

/-- Every column of the matrix is either a barrier column — all rows hold the
same join point at that index — or holds no join point at all. -/
def colsAligned (m : List (List Cell)) : Prop :=
  ∀ j : Nat,
    (∃ jp : JoinPoint, ∀ row ∈ m, row[j]? = some (Cell.joinPoint jp)) ∨
    (∀ row ∈ m, ∀ jp : JoinPoint, row[j]? ≠ some (Cell.joinPoint jp))

theorem allocGroup_inv (N jpId : Nat) (g : List Task) (m : List (List Cell)) (L : Nat)
    (hN : 0 < N) (hlen : m.length = N) (hL : sameRowLengths m L) (hA : colsAligned m) :
    (allocGroup N jpId g m).length = N ∧
      sameRowLengths (allocGroup N jpId g m) (L + groupBlockLen N g + 1) ∧
      colsAligned (allocGroup N jpId g m) := by
  have hrow : ∀ r row', (allocGroup N jpId g m)[r]? = some row' →
      ∃ row, m[r]? = some row ∧ row.length = L ∧ r < N ∧
        row' = row ++ groupRow N g r ++ [Cell.joinPoint (groupJoinPoint N jpId g)] := by
    intro r row' h
    rw [allocGroup_getElem? N jpId g m r] at h
    cases hm : m[r]? with
    | none => rw [hm] at h; cases h
    | some row =>
      rw [hm] at h
      refine ⟨row, rfl, hL row (List.mem_iff_getElem?.mpr ⟨r, hm⟩), ?_, ?_⟩
      · have : r < m.length := (List.getElem?_eq_some.mp hm).1
        omega
      · exact (Option.some.injEq _ _ ▸ h).symm
  refine ⟨by rw [allocGroup_length, hlen], ?_, ?_⟩
  · intro row' hmem
    rcases List.mem_iff_getElem?.mp hmem with ⟨r, hr⟩
    rcases hrow r row' hr with ⟨row, _, hrl, hrN, rfl⟩
    simp [List.length_append, hrl, groupRow_length N g r hN hrN]
    omega
  · intro j
    rcases Nat.lt_or_ge j L with hj | hj
    · -- old columns are untouched
      rcases hA j with ⟨jp, hjp⟩ | hnone
      · left
        refine ⟨jp, ?_⟩
        intro row' hmem
        rcases List.mem_iff_getElem?.mp hmem with ⟨r, hr⟩
        rcases hrow r row' hr with ⟨row, hm, hrl, hrN, rfl⟩
        have hjlt : j < (row ++ groupRow N g r).length := by
          rw [List.length_append, hrl]; omega
        rw [List.getElem?_append, if_pos hjlt, List.getElem?_append,
          if_pos (by rw [hrl]; exact hj)]
        exact hjp row (List.mem_iff_getElem?.mpr ⟨r, hm⟩)
      · right
        intro row' hmem jp
        rcases List.mem_iff_getElem?.mp hmem with ⟨r, hr⟩
        rcases hrow r row' hr with ⟨row, hm, hrl, hrN, rfl⟩
        have hjlt : j < (row ++ groupRow N g r).length := by
          rw [List.length_append, hrl]; omega
        rw [List.getElem?_append, if_pos hjlt, List.getElem?_append,
          if_pos (by rw [hrl]; exact hj)]
        exact hnone row (List.mem_iff_getElem?.mpr ⟨r, hm⟩) jp
    · rcases Nat.lt_or_ge j (L + groupBlockLen N g) with hjb | hjb
      · -- a task / idle column added by this group
        right
        intro row' hmem jp
        rcases List.mem_iff_getElem?.mp hmem with ⟨r, hr⟩
        rcases hrow r row' hr with ⟨row, hm, hrl, hrN, rfl⟩
        have hgl : (groupRow N g r).length = groupBlockLen N g :=
          groupRow_length N g r hN hrN
        have hjlt : j < (row ++ groupRow N g r).length := by
          rw [List.length_append, hrl, hgl]; omega
        rw [List.getElem?_append, if_pos hjlt, List.getElem?_append,
          if_neg (by rw [hrl]; omega)]
        have hlt : j - row.length < (groupRow N g r).length := by
          rw [hrl, hgl]; omega
        rcases (by exact ⟨_, List.getElem?_eq_getElem hlt⟩ :
            ∃ c, (groupRow N g r)[j - row.length]? = some c) with ⟨c, hc⟩
        rw [hc]
        intro hcontra
        have hcmem : c ∈ groupRow N g r :=
          List.mem_iff_getElem?.mpr ⟨j - row.length, hc⟩
        exact groupRow_no_joinPoint N g r c hcmem jp (by injection hcontra)
      · rcases Nat.eq_or_lt_of_le hjb with hjeq | hjgt
        · -- the barrier column of this group
          left
          refine ⟨groupJoinPoint N jpId g, ?_⟩
          intro row' hmem
          rcases List.mem_iff_getElem?.mp hmem with ⟨r, hr⟩
          rcases hrow r row' hr with ⟨row, hm, hrl, hrN, rfl⟩
          have hgl : (groupRow N g r).length = groupBlockLen N g :=
            groupRow_length N g r hN hrN
          have hpre : (row ++ groupRow N g r).length = j := by
            rw [List.length_append, hrl, hgl]; omega
          rw [List.getElem?_append, if_neg (by omega), hpre]
          simp
        · -- beyond the new row length
          right
          intro row' hmem jp
          rcases List.mem_iff_getElem?.mp hmem with ⟨r, hr⟩
          rcases hrow r row' hr with ⟨row, hm, hrl, hrN, rfl⟩
          have hgl : (groupRow N g r).length = groupBlockLen N g :=
            groupRow_length N g r hN hrN
          have : (row ++ groupRow N g r ++ [Cell.joinPoint (groupJoinPoint N jpId g)]).length ≤ j := by
            simp [List.length_append, hrl, hgl]; omega
          rw [List.getElem?_eq_none this]
          simp

/-- Invariant carried through `Allocator.allocations`' loop over the schedule:
the matrix keeps `N` rows, all rows keep a common length, and columns stay
aligned. -/
theorem alloc_fold_inv (N : Nat) (hN : 0 < N) (sch : List (List Task)) :
    ∀ (m : List (List Cell)) (jpId L : Nat),
      m.length = N → sameRowLengths m L → colsAligned m →
      ((sch.foldl (fun acc g => (allocGroup N acc.2 g acc.1, acc.2 + 1))
          (m, jpId)).1.length = N ∧
        ∃ L', sameRowLengths
          (sch.foldl (fun acc g => (allocGroup N acc.2 g acc.1, acc.2 + 1))
            (m, jpId)).1 L' ∧
          colsAligned
            (sch.foldl (fun acc g => (allocGroup N acc.2 g acc.1, acc.2 + 1))
              (m, jpId)).1) := by
  induction sch with
  | nil =>
    intro m jpId L hlen hL hA
    exact ⟨hlen, L, hL, hA⟩
  | cons g rest ih =>
    intro m jpId L hlen hL hA
    rcases allocGroup_inv N jpId g m L hN hlen hL hA with ⟨h1, h2, h3⟩
    exact ih (allocGroup N jpId g m) (jpId + 1) (L + groupBlockLen N g + 1) h1 h2 h3

theorem one_le_allocatorClients (schedule : List (List Task)) :
    1 ≤ allocatorClients schedule := by
  unfold allocatorClients
  have h : ∀ (l : List (List Task)) (i : Nat),
      i ≤ l.foldl (fun m g => max m (groupClients g)) i := by
    intro l
    induction l with
    | nil => intro i; exact Nat.le_refl i
    | cons g gs ih =>
      intro i
      exact Nat.le_trans (Nat.le_max_left i (groupClients g)) (ih _)
  exact h schedule 1

theorem allocations_length (schedule : List (List Task)) :
    (allocations schedule).length = allocatorClients schedule := by
  unfold allocations
  have h0 : (List.replicate (allocatorClients schedule)
      [Cell.joinPoint ⟨0, []⟩] : List (List Cell)).length = allocatorClients schedule := by
    simp
  have h1 : sameRowLengths (List.replicate (allocatorClients schedule)
      [Cell.joinPoint ⟨0, []⟩]) 1 := by
    intro row hrow
    rw [(List.mem_replicate.mp hrow).2]
    rfl
  have h2 : colsAligned (List.replicate (allocatorClients schedule)
      [Cell.joinPoint ⟨0, []⟩]) := by
    intro j
    cases j with
    | zero =>
      left
      refine ⟨⟨0, []⟩, ?_⟩
      intro row hrow
      rw [(List.mem_replicate.mp hrow).2]
      rfl
    | succ j' =>
      right
      intro row hrow jp
      rw [(List.mem_replicate.mp hrow).2]
      simp
  exact (alloc_fold_inv (allocatorClients schedule)
    (one_le_allocatorClients schedule) schedule _ 1 1 h0 h1 h2).1

theorem allocations_inv (schedule : List (List Task)) :
    (∃ L, sameRowLengths (allocations schedule) L) ∧
      colsAligned (allocations schedule) := by
  unfold allocations
  have h0 : (List.replicate (allocatorClients schedule)
      [Cell.joinPoint ⟨0, []⟩] : List (List Cell)).length = allocatorClients schedule := by
    simp
  have h1 : sameRowLengths (List.replicate (allocatorClients schedule)
      [Cell.joinPoint ⟨0, []⟩]) 1 := by
    intro row hrow
    rw [(List.mem_replicate.mp hrow).2]
    rfl
  have h2 : colsAligned (List.replicate (allocatorClients schedule)
      [Cell.joinPoint ⟨0, []⟩]) := by
    intro j
    cases j with
    | zero =>
      left
      refine ⟨⟨0, []⟩, ?_⟩
      intro row hrow
      rw [(List.mem_replicate.mp hrow).2]
      rfl
    | succ j' =>
      right
      intro row hrow jp
      rw [(List.mem_replicate.mp hrow).2]
      simp
  rcases (alloc_fold_inv (allocatorClients schedule)
    (one_le_allocatorClients schedule) schedule _ 1 1 h0 h1 h2).2 with ⟨L', hL', hA'⟩
  exact ⟨⟨L', hL'⟩, hA'⟩

/-!
### Number of workers

The spec describes the worker count as the maximum of `task.clients` over all
sub-tasks of all groups; `specMaxClients` spells that wording out so it can be
compared against `Allocator.clients` (`allocatorClients`).
-/

/-- The spec's wording: "max `task.clients` across all sub-tasks". -/
def specMaxClients (schedule : List (List Task)) : Nat :=
  (schedule.flatten.map (fun t => t.clients)).foldl max 0

theorem foldl_max_start (l : List Nat) : ∀ i : Nat,
    l.foldl max i = max i (l.foldl max 0) := by
  induction l with
  | nil => intro i; simp
  | cons z zs ih =>
    intro i
    rw [List.foldl_cons, List.foldl_cons, ih (max i z), ih (max 0 z)]
    simp [Nat.max_assoc]

theorem le_foldl_max (l : List Nat) (x : Nat) (hx : x ∈ l) : x ≤ l.foldl max 0 := by
  induction l with
  | nil => cases hx
  | cons y ys ih =>
    rw [List.foldl_cons, foldl_max_start ys (max 0 y)]
    rcases List.mem_cons.mp hx with rfl | hx'
    · omega
    · have := ih hx'
      omega

theorem groupClients_eq_foldl_map (g : List Task) :
    groupClients g = (g.map (fun t => t.clients)).foldl max 0 := by
  rw [groupClients, ← List.foldl_map]

theorem specMaxClients_eq_fold (schedule : List (List Task)) :
    specMaxClients schedule = (schedule.map groupClients).foldl max 0 := by
  induction schedule with
  | nil => rfl
  | cons g gs ih =>
    rw [List.map_cons, List.foldl_cons, foldl_max_start (gs.map groupClients) (max 0 (groupClients g))]
    unfold specMaxClients
    rw [List.flatten_cons, List.map_append, List.foldl_append,
      foldl_max_start (gs.flatten.map (fun t => t.clients))
        ((g.map (fun t => t.clients)).foldl max 0)]
    rw [← groupClients_eq_foldl_map g]
    have := ih
    unfold specMaxClients at this
    rw [this]
    simp

theorem allocatorClients_eq_specMax (schedule : List (List Task))
    (h : ∃ t ∈ schedule.flatten, 1 ≤ t.clients) :
    allocatorClients schedule = specMaxClients schedule := by
  have hone : 1 ≤ specMaxClients schedule := by
    rcases h with ⟨t, hmem, hc⟩
    have hmem' : t.clients ∈ schedule.flatten.map (fun t => t.clients) :=
      List.mem_map.mpr ⟨t, hmem, rfl⟩
    exact Nat.le_trans hc (le_foldl_max _ _ hmem')
  have : allocatorClients schedule = max 1 (specMaxClients schedule) := by
    unfold allocatorClients
    rw [← List.foldl_map, foldl_max_start (schedule.map groupClients) 1,
      ← specMaxClients_eq_fold]
  omega

/-!
### Claims about the allocation matrix (C2, C3)
-/

/-- The property claimed by the spec for C2: all non-idle cells of a column
are equal (the same task or the same join point). -/
def columnUniform (m : List (List Cell)) : Prop :=
  ∀ j : Nat, ∀ c1 c2 : Cell,
    (∃ row ∈ m, row[j]? = some c1) → (∃ row ∈ m, row[j]? = some c2) →
    c1 ≠ Cell.idle → c2 ≠ Cell.idle → c1 = c2

/-- A two-group schedule: first a task with two clients, then a parallel group
of two single-client tasks.  Its matrix has two rows whose fourth column holds
two distinct tasks. -/
def c2ExSchedule : List (List Task) :=
  [[⟨3, 2, false, 4, 4, none, none⟩],
   [⟨1, 1, false, 4, 4, none, none⟩, ⟨2, 1, false, 4, 4, none, none⟩]]

/-- C2, counterexample: the allocation matrix of `c2ExSchedule` has a column
(index 3) holding two distinct non-idle task cells — one row runs the first
task of the parallel group, the other the second — so the claimed column
uniformity fails. -/
theorem c2_column_uniform_counterexample : ¬ columnUniform (allocations c2ExSchedule) := by
  intro h
  have h1 : ∃ row ∈ allocations c2ExSchedule,
      row[3]? = some (Cell.task ⟨1, 1, false, 4, 4, none, none⟩) := by decide
  have h2 : ∃ row ∈ allocations c2ExSchedule,
      row[3]? = some (Cell.task ⟨2, 1, false, 4, 4, none, none⟩) := by decide
  have := h 3 _ _ h1 h2 (by decide) (by decide)
  exact absurd this (by decide)

/-- C2, amended: in the allocation matrix every column is uniform only in its
barriers — a column either holds the same `JoinPoint` in every row, or holds
no `JoinPoint` in any row (it may then mix distinct tasks and idle cells). -/
theorem allocations_columns_barrier_aligned (schedule : List (List Task)) :
    colsAligned (allocations schedule) :=
  (allocations_inv schedule).2

/-- C3: the allocation matrix is rectangular and, whenever the schedule contains
at least one sub-task with at least one client (malformed schedules are
rejected upstream of the driver), its row count is the maximum of
`task.clients` over all sub-tasks of all groups. -/
theorem allocations_rectangular_and_row_count (schedule : List (List Task))
    (h : ∃ t ∈ schedule.flatten, 1 ≤ t.clients) :
    (allocations schedule).length = specMaxClients schedule ∧
      ∀ r1 ∈ allocations schedule, ∀ r2 ∈ allocations schedule,
        r1.length = r2.length := by
  constructor
  · rw [allocations_length, allocatorClients_eq_specMax schedule h]
  · rcases (allocations_inv schedule).1 with ⟨L, hL⟩
    intro r1 h1 r2 h2
    rw [hL r1 h1, hL r2 h2]

/-- C3, witness: the claim instantiated on a concrete two-group schedule. -/
theorem allocations_rectangular_and_row_count_witness :
    (∃ t ∈ ([[⟨3, 2, false, 4, 4, none, none⟩],
        [⟨1, 1, false, 4, 4, none, none⟩]] : List (List Task)).flatten, 1 ≤ t.clients) ∧
      ((allocations [[⟨3, 2, false, 4, 4, none, none⟩],
          [⟨1, 1, false, 4, 4, none, none⟩]]).length =
        specMaxClients [[⟨3, 2, false, 4, 4, none, none⟩],
          [⟨1, 1, false, 4, 4, none, none⟩]] ∧
        ∀ r1 ∈ allocations [[⟨3, 2, false, 4, 4, none, none⟩],
            [⟨1, 1, false, 4, 4, none, none⟩]],
          ∀ r2 ∈ allocations [[⟨3, 2, false, 4, 4, none, none⟩],
              [⟨1, 1, false, 4, 4, none, none⟩]],
            r1.length = r2.length) :=
  ⟨by decide, allocations_rectangular_and_row_count _ (by decide)⟩

/-!
## Schedule generator (`iteration_count_based`, `schedule_for`)

A generator tuple is `(next_scheduled, sample_type, percent_completed)`; the
`runner` and `params.params()` components of the source tuples are external
objects handed through unchanged and are elided.  The task's scheduler is an
abstract `sched : ℚ → ℚ` (`sched.next(previous)`), threaded exactly as in the
source.  A generator that raises before yielding is an `Except.error`.
-/

/-- The `for it in range(0, total_iterations)` loop of `iteration_count_based`,
by the number of remaining iterations: each pass yields
`(next_scheduled, sample_type, percent_completed)` with
`sample_type = Warmup iff it < warmup_iterations` and
`percent_completed = (it + 1) / total_iterations`, then advances
`next_scheduled = sched.next(next_scheduled)`. -/
def iterLoop (sched : ℚ → ℚ) (warmup total : Nat) :
    Nat → ℚ → Nat → List (ℚ × SampleType × ℚ)
  | _, _, 0 => []
  | it, next, rem + 1 =>
    (next, (if it < warmup then SampleType.Warmup else SampleType.Normal),
        (((it : ℚ)) + 1) / (total : ℚ)) ::
      iterLoop sched warmup total (it + 1) (sched next) rem

/-- `iteration_count_based(sched, warmup_iterations, iterations, ...)`:
raises `RallyAssertionError` when the total iteration count is zero, else
yields `total_iterations` tuples. -/
def iteration_count_based (sched : ℚ → ℚ) (warmupIterations iterations : Nat) :
    Except String (List (ℚ × SampleType × ℚ)) :=
  if warmupIterations + iterations = 0 then
    Except.error ("Operation must run at least for one iteration.")
  else
    Except.ok (iterLoop sched warmupIterations (warmupIterations + iterations) 0 0
      (warmupIterations + iterations))

/-- `schedule_for(current_track, task, client_index)` for the branch the claims
concern: when neither time period is set it builds an iteration-count schedule
with `task.warmup_iterations // num_clients` and
`task.iterations // num_clients`.  The time-period branch reads the machine
clock (`time.perf_counter`) and is not modelled (`none`). -/
def schedule_for (task : Task) (sched : ℚ → ℚ) :
    Option (Except String (List (ℚ × SampleType × ℚ))) :=
  if task.warmupTimePeriod ≠ none ∨ task.timePeriod ≠ none then
    none
  else
    some (iteration_count_based sched (task.warmupIterations / task.clients)
      (task.iterations / task.clients))

theorem iterLoop_length (sched : ℚ → ℚ) (warmup total : Nat) :
    ∀ (rem it : Nat) (next : ℚ),
      (iterLoop sched warmup total it next rem).length = rem := by
  intro rem
  induction rem with
  | zero => intro it next; rfl
  | succ rem ih =>
    intro it next
    show (iterLoop sched warmup total (it + 1) (sched next) rem).length + 1 = rem + 1
    rw [ih]

theorem iterLoop_getElem? (sched : ℚ → ℚ) (warmup total : Nat) :
    ∀ (rem it : Nat) (next : ℚ) (j : Nat), j < rem →
      ∃ nx : ℚ, (iterLoop sched warmup total it next rem)[j]? =
        some (nx,
          (if it + j < warmup then SampleType.Warmup else SampleType.Normal),
          (((it + j : Nat) : ℚ) + 1) / (total : ℚ)) := by
  intro rem
  induction rem with
  | zero => intro it next j hj; omega
  | succ rem ih =>
    intro it next j hj
    cases j with
    | zero =>
      refine ⟨next, ?_⟩
      simp [iterLoop]
    | succ j' =>
      rcases ih (it + 1) (sched next) j' (by omega) with ⟨nx, hnx⟩
      refine ⟨nx, ?_⟩
      have h1 : it + 1 + j' = it + (j' + 1) := by omega
      simp only [iterLoop, List.getElem?_cons_succ]
      rw [hnx, h1]

/-!
### Claims C1, C7, C9
-/

/-- C1, counterexample: for a task with `warmup_iterations = 3`,
`iterations = 3` and `clients = 2` the generator yields
`3 // 2 + 3 // 2 = 2` tuples, not `⌊(3 + 3) / 2⌋ = 3` as claimed. -/
theorem c1_tuple_count_counterexample :
    (schedule_for ⟨1, 2, false, 3, 3, none, none⟩ (fun q => q)).map
        (Except.map List.length) = some (Except.ok 2) ∧
      ((⟨1, 2, false, 3, 3, none, none⟩ : Task).warmupIterations +
          (⟨1, 2, false, 3, 3, none, none⟩ : Task).iterations) /
        (⟨1, 2, false, 3, 3, none, none⟩ : Task).clients = 3 ∧
      (2 : Nat) ≠ 3 := by
  refine ⟨rfl, rfl, by decide⟩

/-- C1, amended: for an iteration-count task with `N = task.clients`, the
schedule generator yields exactly
`⌊warmup_iterations / N⌋ + ⌊iterations / N⌋` tuples (whenever that sum is
positive; otherwise it raises, see C9), of which the first
`⌊warmup_iterations / N⌋` have kind Warmup and all later ones Normal. -/
theorem iteration_schedule_count_and_kinds (task : Task) (sched : ℚ → ℚ)
    (hw : task.warmupTimePeriod = none) (ht : task.timePeriod = none)
    (hnz : task.warmupIterations / task.clients + task.iterations / task.clients ≠ 0) :
    ∃ l, schedule_for task sched = some (Except.ok l) ∧
      l.length = task.warmupIterations / task.clients +
        task.iterations / task.clients ∧
      ∀ (j : Nat) (tup : ℚ × SampleType × ℚ), l[j]? = some tup →
        (tup.2.1 = SampleType.Warmup ↔ j < task.warmupIterations / task.clients) := by
  refine ⟨iterLoop sched (task.warmupIterations / task.clients)
      (task.warmupIterations / task.clients + task.iterations / task.clients) 0 0
      (task.warmupIterations / task.clients + task.iterations / task.clients),
    ?_, ?_, ?_⟩
  · unfold schedule_for iteration_count_based
    rw [if_neg (by simp [hw, ht]), if_neg hnz]
  · exact iterLoop_length _ _ _ _ _ _
  · intro j tup htup
    have hj : j < task.warmupIterations / task.clients +
        task.iterations / task.clients := by
      have := (List.getElem?_eq_some.mp htup).1
      rwa [iterLoop_length] at this
    rcases iterLoop_getElem? sched (task.warmupIterations / task.clients)
        (task.warmupIterations / task.clients + task.iterations / task.clients)
        (task.warmupIterations / task.clients + task.iterations / task.clients)
        0 0 j hj with ⟨nx, hnx⟩
    rw [htup] at hnx
    injection hnx with h
    rw [h]
    simp only [Nat.zero_add]
    by_cases hlt : j < task.warmupIterations / task.clients <;> simp [hlt]

/-- C1, witness for the amended theorem: a task with 3 warmup iterations,
3 measurement iterations and 2 clients. -/
theorem iteration_schedule_count_and_kinds_witness :
    ((⟨1, 2, false, 3, 3, none, none⟩ : Task).warmupTimePeriod = none ∧
      (⟨1, 2, false, 3, 3, none, none⟩ : Task).timePeriod = none ∧
      (⟨1, 2, false, 3, 3, none, none⟩ : Task).warmupIterations / 2 +
        (⟨1, 2, false, 3, 3, none, none⟩ : Task).iterations / 2 ≠ 0) ∧
    (∃ l, schedule_for ⟨1, 2, false, 3, 3, none, none⟩ (fun q => q) =
        some (Except.ok l) ∧
      l.length = (⟨1, 2, false, 3, 3, none, none⟩ : Task).warmupIterations /
          (⟨1, 2, false, 3, 3, none, none⟩ : Task).clients +
        (⟨1, 2, false, 3, 3, none, none⟩ : Task).iterations /
          (⟨1, 2, false, 3, 3, none, none⟩ : Task).clients ∧
      ∀ (j : Nat) (tup : ℚ × SampleType × ℚ), l[j]? = some tup →
        (tup.2.1 = SampleType.Warmup ↔
          j < (⟨1, 2, false, 3, 3, none, none⟩ : Task).warmupIterations /
            (⟨1, 2, false, 3, 3, none, none⟩ : Task).clients)) :=
  ⟨⟨rfl, rfl, by decide⟩,
    iteration_schedule_count_and_kinds ⟨1, 2, false, 3, 3, none, none⟩
      (fun q => q) rfl rfl (by decide)⟩

/-- C7, counterexample: for a task with 0 warmup iterations, 2 iterations and
1 client, the first tuple (index 0) carries progress `1/2`, not `0/2 = 0` as
the claim's `progress = i / total` (counting from 0) would require. -/
theorem c7_progress_counterexample :
    (schedule_for ⟨7, 1, false, 0, 2, none, none⟩ (fun q => q)).map
        (Except.map (fun l => l.map (fun tup => tup.2.2))) =
      some (Except.ok [1 / 2, 1]) ∧ (1 / 2 : ℚ) ≠ 0 / 2 := by
  constructor
  · norm_num [schedule_for, iteration_count_based, iterLoop, Except.map]
  · norm_num

/-- C7, amended: the `i`-th tuple (counting from 0) of an iteration-count
schedule carries progress `(i + 1) / total` where `total` is the number of
tuples yielded. -/
theorem iteration_schedule_progress (task : Task) (sched : ℚ → ℚ)
    (hw : task.warmupTimePeriod = none) (ht : task.timePeriod = none)
    (hnz : task.warmupIterations / task.clients + task.iterations / task.clients ≠ 0) :
    ∃ l, schedule_for task sched = some (Except.ok l) ∧
      ∀ (j : Nat) (tup : ℚ × SampleType × ℚ), l[j]? = some tup →
        tup.2.2 = ((j : ℚ) + 1) / (l.length : ℚ) := by
  refine ⟨iterLoop sched (task.warmupIterations / task.clients)
      (task.warmupIterations / task.clients + task.iterations / task.clients) 0 0
      (task.warmupIterations / task.clients + task.iterations / task.clients),
    ?_, ?_⟩
  · unfold schedule_for iteration_count_based
    rw [if_neg (by simp [hw, ht]), if_neg hnz]
  · intro j tup htup
    have hj : j < task.warmupIterations / task.clients +
        task.iterations / task.clients := by
      have := (List.getElem?_eq_some.mp htup).1
      rwa [iterLoop_length] at this
    rcases iterLoop_getElem? sched (task.warmupIterations / task.clients)
        (task.warmupIterations / task.clients + task.iterations / task.clients)
        (task.warmupIterations / task.clients + task.iterations / task.clients)
        0 0 j hj with ⟨nx, hnx⟩
    rw [htup] at hnx
    injection hnx with h
    rw [h, iterLoop_length]
    simp

/-- C7, witness for the amended theorem. -/
theorem iteration_schedule_progress_witness :
    ((⟨7, 1, false, 0, 2, none, none⟩ : Task).warmupTimePeriod = none ∧
      (⟨7, 1, false, 0, 2, none, none⟩ : Task).timePeriod = none ∧
      (⟨7, 1, false, 0, 2, none, none⟩ : Task).warmupIterations / 1 +
        (⟨7, 1, false, 0, 2, none, none⟩ : Task).iterations / 1 ≠ 0) ∧
    (∃ l, schedule_for ⟨7, 1, false, 0, 2, none, none⟩ (fun q => q) =
        some (Except.ok l) ∧
      ∀ (j : Nat) (tup : ℚ × SampleType × ℚ), l[j]? = some tup →
        tup.2.2 = ((j : ℚ) + 1) / (l.length : ℚ)) :=
  ⟨⟨rfl, rfl, by decide⟩,
    iteration_schedule_progress ⟨7, 1, false, 0, 2, none, none⟩
      (fun q => q) rfl rfl (by decide)⟩

/-- C9: when `warmup_iterations // clients + iterations // clients = 0`
(for instance both counts strictly below the client count), building the
iteration-count schedule raises `RallyAssertionError("Operation must run at
least for one iteration.")` and yields no tuple. -/
theorem iteration_schedule_zero_iterations_raises (task : Task) (sched : ℚ → ℚ)
    (hw : task.warmupTimePeriod = none) (ht : task.timePeriod = none)
    (_hc : 0 < task.clients)
    (h0 : task.warmupIterations / task.clients + task.iterations / task.clients = 0) :
    schedule_for task sched =
      some (Except.error ("Operation must run at least for one iteration.")) := by
  unfold schedule_for iteration_count_based
  rw [if_neg (by simp [hw, ht]), if_pos h0]

/-- C9, witness: one warmup iteration and one measurement iteration shared by
two clients — each client's schedule raises. -/
theorem iteration_schedule_zero_iterations_raises_witness :
    ((⟨9, 2, false, 1, 1, none, none⟩ : Task).warmupTimePeriod = none ∧
      (⟨9, 2, false, 1, 1, none, none⟩ : Task).timePeriod = none ∧
      0 < (⟨9, 2, false, 1, 1, none, none⟩ : Task).clients ∧
      (⟨9, 2, false, 1, 1, none, none⟩ : Task).warmupIterations / 2 +
        (⟨9, 2, false, 1, 1, none, none⟩ : Task).iterations / 2 = 0) ∧
    schedule_for ⟨9, 2, false, 1, 1, none, none⟩ (fun q => q) =
      some (Except.error ("Operation must run at least for one iteration.")) :=
  ⟨⟨rfl, rfl, by decide, by decide⟩,
    iteration_schedule_zero_iterations_raises ⟨9, 2, false, 1, 1, none, none⟩
      (fun q => q) rfl rfl (by decide) (by decide)⟩

/-!
## Sampler (C8)

`Sampler` wraps `queue.Queue(maxsize=16384)`.  `add` builds a `Sample` (its
wall-clock and relative timestamps are clock readings passed in by the caller
here) and enqueues it with `put_nowait`, catching `queue.Full` and dropping
the sample (with a warning) — it never blocks and never raises.  The `samples`
property pops with `get_nowait` until `queue.Empty`: all queued samples in
FIFO insertion order, leaving the queue empty.
-/

/-- A `Sample` record.  `request_meta_data` is an external dict passed through
unchanged; it is elided. -/
structure Sample where
  clientId : Nat
  absoluteTime : ℚ
  relativeTime : ℚ
  task : Task
  sampleType : SampleType
  latencyMs : ℚ
  serviceTimeMs : ℚ
  totalOps : Nat
  totalOpsUnit : String
  timePeriod : ℚ
  percentCompleted : Option ℚ
deriving DecidableEq

/-- `queue.Queue(maxsize=16384)`. -/
def samplerMaxSize : Nat := 16384

/-- The `Sampler`: its bounded queue, front of the list = oldest element. -/
structure Sampler where
  clientId : Nat
  task : Task
  startTimestamp : ℚ
  q : List Sample
deriving DecidableEq

/-- `Sampler.add`: `put_nowait` raises `queue.Full` when the queue already
holds `maxsize` items, which `add` catches and drops the sample; otherwise the
sample is appended at the back. -/
def Sampler.add (s : Sampler) (x : Sample) : Sampler :=
  if samplerMaxSize ≤ s.q.length then s else { s with q := s.q ++ [x] }

/-- The `samples` property: `get_nowait` until `queue.Empty` — returns the
queued samples in insertion order and leaves the queue empty. -/
def Sampler.drainSamples (s : Sampler) : List Sample × Sampler :=
  (s.q, { s with q := [] })

/-- C8: the sampler is a bounded queue of capacity 16384.  `add` is total (it
neither blocks nor raises): on a full queue the sample is dropped and the
queue unchanged, otherwise appended at the back; the queue never exceeds the
capacity; draining returns all queued samples in insertion order and empties
the queue. -/
theorem sampler_bounded_queue (s : Sampler) (x : Sample)
    (hinv : s.q.length ≤ samplerMaxSize) :
    (s.q.length = samplerMaxSize → s.add x = s) ∧
    (s.q.length ≠ samplerMaxSize → (s.add x).q = s.q ++ [x]) ∧
    (s.add x).q.length ≤ samplerMaxSize ∧
    s.drainSamples = (s.q, { s with q := [] }) := by
  refine ⟨?_, ?_, ?_, rfl⟩
  · intro heq
    unfold Sampler.add
    rw [if_pos (by omega)]
  · intro hne
    unfold Sampler.add
    rw [if_neg (by omega)]
  · unfold Sampler.add
    by_cases hfull : samplerMaxSize ≤ s.q.length
    · rw [if_pos hfull]; exact hinv
    · rw [if_neg hfull]
      simp only [List.length_append, List.length_cons, List.length_nil]
      omega

/-- C8, witness: a sampler holding one sample. -/
theorem sampler_bounded_queue_witness :
    (Sampler.mk 0 ⟨0, 1, false, 0, 1, none, none⟩ 0
        [⟨0, 0, 0, ⟨0, 1, false, 0, 1, none, none⟩, SampleType.Normal, 0, 0, 1, "ops", 0, none⟩]).q.length ≤
        samplerMaxSize ∧
    (((Sampler.mk 0 ⟨0, 1, false, 0, 1, none, none⟩ 0
        [⟨0, 0, 0, ⟨0, 1, false, 0, 1, none, none⟩, SampleType.Normal, 0, 0, 1, "ops", 0, none⟩]).q.length ≠
        samplerMaxSize →
      ((Sampler.mk 0 ⟨0, 1, false, 0, 1, none, none⟩ 0
        [⟨0, 0, 0, ⟨0, 1, false, 0, 1, none, none⟩, SampleType.Normal, 0, 0, 1, "ops", 0, none⟩]).add
          ⟨0, 0, 0, ⟨0, 1, false, 0, 1, none, none⟩, SampleType.Normal, 0, 0, 1, "ops", 0, none⟩).q =
        (Sampler.mk 0 ⟨0, 1, false, 0, 1, none, none⟩ 0
          [⟨0, 0, 0, ⟨0, 1, false, 0, 1, none, none⟩, SampleType.Normal, 0, 0, 1, "ops", 0, none⟩]).q ++
          [⟨0, 0, 0, ⟨0, 1, false, 0, 1, none, none⟩, SampleType.Normal, 0, 0, 1, "ops", 0, none⟩])) :=
  ⟨by norm_num [samplerMaxSize],
    (sampler_bounded_queue _ _ (by norm_num [samplerMaxSize])).2.1⟩

/-!
## Executor (C6)

`Executor.__call__` iterates the schedule tuples.  Each loop iteration makes
external observations: the `cancel` flag at the loop head, up to three
`time.perf_counter()` readings (`checkTime` when computing the sleep `rest`,
`start` before and `stop` after `execute_single`), the runner result, and the
`complete` flag after the request.  These observations are inputs here; the
facts the real clock guarantees — monotonicity of successive readings, and
`time.sleep(rest)` returning no earlier than `rest` seconds later — become the
`clockOK` hypothesis.
-/

/-- Modelled from the spec: `convert.seconds_to_ms` lives in the utils module,
which is not part of the driver sources; milliseconds are seconds times
1000. -/
def seconds_to_ms (x : ℚ) : ℚ := x * 1000

/-- The external observations of one executor loop iteration. -/
structure IterObs where
  cancelSet : Bool
  checkTime : ℚ
  startTime : ℚ
  stopTime : ℚ
  totalOps : Nat
  totalOpsUnit : String
  completeSet : Bool
deriving DecidableEq

/-- The sample fields the executor hands to `Sampler.add` for one tuple
(`expected_scheduled_time, sample_type, percent_completed` — the progress may
be `None` for eternal time-period tasks). -/
structure ExecSample where
  sampleType : SampleType
  latencyMs : ℚ
  serviceTimeMs : ℚ
  totalOps : Nat
  totalOpsUnit : String
  timePeriod : ℚ
  percentCompleted : Option ℚ
deriving DecidableEq

/-- One loop body of `Executor.__call__` after the cancel check:
`absolute_expected_schedule_time = total_start + expected_scheduled_time`;
`service_time = stop - start`; `latency = stop - absolute_expected_schedule_time`
when `expected_scheduled_time > 0` (throughput throttled) else `service_time`;
progress is overridden to `1.0` when the `complete` flag is set. -/
def executorStep (totalStart : ℚ) (tup : ℚ × SampleType × Option ℚ)
    (obs : IterObs) : ExecSample :=
  { sampleType := tup.2.1
    latencyMs := seconds_to_ms
      (if 0 < tup.1 then obs.stopTime - (totalStart + tup.1)
        else obs.stopTime - obs.startTime)
    serviceTimeMs := seconds_to_ms (obs.stopTime - obs.startTime)
    totalOps := obs.totalOps
    totalOpsUnit := obs.totalOpsUnit
    timePeriod := obs.stopTime - totalStart
    percentCompleted := if obs.completeSet then some 1 else tup.2.2 }

/-- The executor loop: stop before the iteration when `cancel` is set, emit
the iteration's sample, and stop after it when `complete` is set.  (A fatal
runner error aborts the loop; that only truncates the emitted list, so every
emitted sample is still produced by `executorStep`.) -/
def executorRun (totalStart : ℚ) :
    List (ℚ × SampleType × Option ℚ) → List IterObs → List ExecSample
  | [], _ => []
  | _ :: _, [] => []
  | tup :: rest, obs :: obsRest =>
    if obs.cancelSet then []
    else
      executorStep totalStart tup obs ::
        (if obs.completeSet then [] else executorRun totalStart rest obsRest)

/-- What the machine guarantees about one iteration's clock readings: the
`start` reading follows the `rest` computation's reading, `stop` follows
`start`, and when the code slept (`rest > 0`) the post-sleep reading is at
least the absolute expected schedule time. -/
def clockOK (totalStart : ℚ) (tup : ℚ × SampleType × Option ℚ)
    (obs : IterObs) : Prop :=
  obs.checkTime ≤ obs.startTime ∧
  obs.startTime ≤ obs.stopTime ∧
  (0 < tup.1 → 0 < totalStart + tup.1 - obs.checkTime →
    totalStart + tup.1 ≤ obs.startTime)

/-- C6: every sample the executor produces has non-negative service time;
when the tuple's expected dispatch offset is positive (throttled) its latency
is at least its service time, and when the offset is zero they are equal. -/
theorem executor_latency_service_time (totalStart : ℚ)
    (sched : List (ℚ × SampleType × Option ℚ)) (obs : List IterObs)
    (hclock : ∀ (i : Nat) tup ob, sched[i]? = some tup → obs[i]? = some ob →
      clockOK totalStart tup ob) :
    ∀ (i : Nat) smp, (executorRun totalStart sched obs)[i]? = some smp →
      ∃ tup ob, sched[i]? = some tup ∧ obs[i]? = some ob ∧
        0 ≤ smp.serviceTimeMs ∧
        (0 < tup.1 → smp.serviceTimeMs ≤ smp.latencyMs) ∧
        (tup.1 = 0 → smp.latencyMs = smp.serviceTimeMs) := by
  induction sched generalizing obs with
  | nil => intro i smp h; cases h
  | cons tup rest ih =>
    intro i smp h
    cases obs with
    | nil => cases h
    | cons ob obsRest =>
      rw [executorRun] at h
      by_cases hcan : ob.cancelSet
      · rw [if_pos hcan] at h; cases h
      · rw [if_neg hcan] at h
        rcases hclock 0 tup ob List.getElem?_cons_zero List.getElem?_cons_zero
          with ⟨hcs, hss, hsleep⟩
        cases i with
        | zero =>
          rw [List.getElem?_cons_zero] at h
          injection h with h
          subst h
          refine ⟨tup, ob, List.getElem?_cons_zero, List.getElem?_cons_zero,
            ?_, ?_, ?_⟩
          · simp only [executorStep, seconds_to_ms]
            nlinarith
          · intro hpos
            simp only [executorStep, seconds_to_ms, if_pos hpos]
            have hstart : totalStart + tup.1 ≤ ob.startTime := by
              by_cases hrest : 0 < totalStart + tup.1 - ob.checkTime
              · exact hsleep hpos hrest
              · nlinarith
            nlinarith
          · intro hzero
            simp only [executorStep, seconds_to_ms, hzero]
            norm_num
        | succ i' =>
          by_cases hcomp : ob.completeSet
          · rw [if_pos hcomp, List.getElem?_cons_succ] at h
            cases h
          · rw [if_neg hcomp, List.getElem?_cons_succ] at h
            rcases ih obsRest
                (fun j t o hj ho => hclock (j + 1) t o
                  (by rwa [List.getElem?_cons_succ]) (by rwa [List.getElem?_cons_succ]))
                i' smp h with ⟨t, o, ht, ho, h1, h2, h3⟩
            exact ⟨t, o,
              by rwa [List.getElem?_cons_succ], by rwa [List.getElem?_cons_succ],
              h1, h2, h3⟩

/-- C6, witness: a one-tuple throttled schedule whose runner finishes after
the expected dispatch time. -/
theorem executor_latency_service_time_witness :
    (∀ (i : Nat) tup ob,
        ([((1 : ℚ), SampleType.Normal, some 1)] :
          List (ℚ × SampleType × Option ℚ))[i]? = some tup →
        ([⟨false, (0 : ℚ), (1 : ℚ), (3 : ℚ), 1, "ops", false⟩] :
          List IterObs)[i]? = some ob →
        clockOK 0 tup ob) ∧
    (∀ (i : Nat) smp,
        (executorRun 0 [((1 : ℚ), SampleType.Normal, some 1)]
          [⟨false, (0 : ℚ), (1 : ℚ), (3 : ℚ), 1, "ops", false⟩])[i]? = some smp →
      ∃ tup ob,
        ([((1 : ℚ), SampleType.Normal, some 1)] :
          List (ℚ × SampleType × Option ℚ))[i]? = some tup ∧
        ([⟨false, (0 : ℚ), (1 : ℚ), (3 : ℚ), 1, "ops", false⟩] :
          List IterObs)[i]? = some ob ∧
        0 ≤ smp.serviceTimeMs ∧
        (0 < tup.1 → smp.serviceTimeMs ≤ smp.latencyMs) ∧
        (tup.1 = 0 → smp.latencyMs = smp.serviceTimeMs)) := by
  have hclock : ∀ (i : Nat) tup ob,
      ([((1 : ℚ), SampleType.Normal, some 1)] :
        List (ℚ × SampleType × Option ℚ))[i]? = some tup →
      ([⟨false, (0 : ℚ), (1 : ℚ), (3 : ℚ), 1, "ops", false⟩] :
        List IterObs)[i]? = some ob →
      clockOK 0 tup ob := by
    intro i tup ob h1 h2
    cases i with
    | zero =>
      injection h1 with h1
      injection h2 with h2
      subst h1; subst h2
      refine ⟨by norm_num, by norm_num, ?_⟩
      intro _ _
      norm_num
    | succ i' => cases h1
  exact ⟨hclock, executor_latency_service_time 0 _ _ hclock⟩

/-!
## Coordinator (`Driver.joinpoint_reached`, C4 and C5)

The coordinator state keeps the fields `joinpoint_reached` reads or writes.
External side effects (progress reporting, metrics-store post-processing and
externalization, closing the store) are elided; the messages the coordinator
asks its actor `target` to send are returned explicitly.  The handler reads
`time.perf_counter()` twice — once when recording the arriving report
(`masterReceivedMsgAt`) and once when computing `start_next_task`
(`masterNow`); both readings are parameters.
-/

/-- The notifications `joinpoint_reached` emits through its `target`. -/
inductive DriverMsg where
  | taskFinished : ℚ → DriverMsg
  | driveAt : Nat → ℚ → DriverMsg
  | completeCurrentTask : Nat → DriverMsg
  | benchmarkComplete : DriverMsg
deriving DecidableEq

/-- The coordinator (`Driver`) state touched by `joinpoint_reached`.
`clientsCompletedCurrentStep` is the dict `client_id ↦ (client_local_timestamp,
master_received_msg_at)`; `currentStep` starts at `-1` and `finished()` is
`current_step == number_of_steps`. -/
structure DriverState where
  numDrivers : Nat
  numberOfSteps : Int
  currentlyCompleted : Nat
  clientsCompletedCurrentStep : List (Nat × ℚ × ℚ)
  currentStep : Int
  completeCurrentTaskSent : Bool
  testMode : Bool
  rawSamples : List Sample
deriving DecidableEq

/-- Python dict assignment `d[k] = v`: replace any existing entry. -/
def upsert (l : List (Nat × ℚ × ℚ)) (k : Nat) (v : ℚ × ℚ) : List (Nat × ℚ × ℚ) :=
  (k, v) :: l.filter (fun p => p.1 != k)

/-- The per-step reset performed when all drivers have reported: zero the
arrival counter, clear the memoization flag and the per-step dict (a copy
`clients_curr_step` is taken first), clear the per-step samples, and advance
`current_step`. -/
def driverStepReset (s : DriverState) : DriverState :=
  { s with currentlyCompleted := 0
           completeCurrentTaskSent := false
           clientsCompletedCurrentStep := []
           currentStep := s.currentStep + 1
           rawSamples := [] }

/-- `waiting_period`: `0` when `track.test.mode.enabled`, else `5.0` seconds. -/
def waitingPeriodOf (s : DriverState) : ℚ :=
  if s.testMode then 0 else 5

/-- The state after a non-final report: the arrival is counted and recorded. -/
def driverRecord (s : DriverState) (clientId : Nat)
    (clientLocalTimestamp masterReceivedMsgAt : ℚ) : DriverState :=
  { s with currentlyCompleted := s.currentlyCompleted + 1
           clientsCompletedCurrentStep := upsert s.clientsCompletedCurrentStep
             clientId (clientLocalTimestamp, masterReceivedMsgAt) }

/-- `Driver.joinpoint_reached(client_id, client_local_timestamp, task)`.
Returns `none` where the Python code would raise (a `KeyError` on a missing
`clients_curr_step[client_id]` while scheduling the next step). -/
def joinpoint_reached (s : DriverState) (clientId : Nat)
    (clientLocalTimestamp : ℚ) (jp : JoinPoint)
    (masterReceivedMsgAt masterNow : ℚ) : Option (DriverState × List DriverMsg) :=
  if s.currentlyCompleted + 1 = s.numDrivers then
    -- all drivers reached the join point: reset per-step state and either
    -- finish the benchmark or schedule the next step
    if (driverStepReset s).currentStep = s.numberOfSteps then
      some (driverStepReset s, [DriverMsg.benchmarkComplete])
    else
      match (List.range s.numDrivers).mapM (fun cid =>
          ((upsert s.clientsCompletedCurrentStep clientId
              (clientLocalTimestamp, masterReceivedMsgAt)).lookup cid).map
            (fun lm => DriverMsg.driveAt cid
              (lm.1 + ((masterNow + waitingPeriodOf s) - lm.2)))) with
      | none => none
      | some drives =>
        some (driverStepReset s,
          DriverMsg.taskFinished (waitingPeriodOf s) :: drives)
  else
    if jp.precedingTaskCompletesParent && !s.completeCurrentTaskSent then
      if jp.clientsExecutingCompletingTask.all
          (fun c => ((upsert s.clientsCompletedCurrentStep clientId
            (clientLocalTimestamp, masterReceivedMsgAt)).lookup c).isSome) then
        some ({ driverRecord s clientId clientLocalTimestamp masterReceivedMsgAt
                  with completeCurrentTaskSent := true },
          (List.range s.numDrivers).map DriverMsg.completeCurrentTask)
      else
        some (driverRecord s clientId clientLocalTimestamp masterReceivedMsgAt, [])
    else
      some (driverRecord s clientId clientLocalTimestamp masterReceivedMsgAt, [])

theorem mapM_option_all_some {α β : Type} (f : α → Option β) :
    ∀ l : List α, (∀ a ∈ l, (f a).isSome) →
      ∃ bs, l.mapM f = some bs ∧ bs.length = l.length ∧
        (∀ a ∈ l, ∀ b, f a = some b → b ∈ bs) ∧
        (∀ b ∈ bs, ∃ a ∈ l, f a = some b) := by
  intro l
  induction l with
  | nil =>
    intro _
    exact ⟨[], rfl, rfl, by simp, by simp⟩
  | cons a l ih =>
    intro h
    rcases Option.isSome_iff_exists.mp (h a (List.mem_cons_self a l)) with ⟨b, hb⟩
    rcases ih (fun x hx => h x (List.mem_cons_of_mem a hx)) with ⟨bs, hbs, hlen, hfwd, hbwd⟩
    refine ⟨b :: bs, ?_, by simp [hlen], ?_, ?_⟩
    · rw [List.mapM_cons, hb, hbs]
      rfl
    · intro a' ha' b' hb'
      rcases List.mem_cons.mp ha' with rfl | ha'
      · rw [hb] at hb'
        injection hb' with hb'
        exact hb' ▸ List.mem_cons_self b bs
      · exact List.mem_cons_of_mem b (hfwd a' ha' b' hb')
    · intro b' hb'
      rcases List.mem_cons.mp hb' with rfl | hb'
      · exact ⟨a, List.mem_cons_self a l, hb⟩
      · rcases hbwd b' hb' with ⟨a', ha', hfa⟩
        exact ⟨a', List.mem_cons_of_mem a ha', hfa⟩

/-- C4: when the last of the `N` drivers reports a join point that is not the
final one, the coordinator emits `on_task_finished` with
`waiting_period = 0` in test mode and `5.0` otherwise, computes
`start_next_task = masterNow + waiting_period`, and sends every driver `i` a
`Drive` at `client_local_timestamp_i + (start_next_task -
master_received_msg_at_i)` (the per-driver skew compensation). -/
theorem driver_last_joinpoint_drives (s : DriverState) (clientId : Nat)
    (clientLocalTimestamp : ℚ) (jp : JoinPoint) (masterReceivedMsgAt masterNow : ℚ)
    (hlast : s.currentlyCompleted + 1 = s.numDrivers)
    (hnotfinal : s.currentStep + 1 ≠ s.numberOfSteps)
    (hall : ∀ c, c < s.numDrivers →
      ((upsert s.clientsCompletedCurrentStep clientId
        (clientLocalTimestamp, masterReceivedMsgAt)).lookup c).isSome) :
    ∃ drives,
      joinpoint_reached s clientId clientLocalTimestamp jp masterReceivedMsgAt
          masterNow =
        some ({ s with currentlyCompleted := 0
                       completeCurrentTaskSent := false
                       clientsCompletedCurrentStep := []
                       currentStep := s.currentStep + 1
                       rawSamples := [] },
          DriverMsg.taskFinished (if s.testMode then 0 else 5) :: drives) ∧
      drives.length = s.numDrivers ∧
      ∀ c lm, c < s.numDrivers →
        (upsert s.clientsCompletedCurrentStep clientId
            (clientLocalTimestamp, masterReceivedMsgAt)).lookup c = some lm →
        DriverMsg.driveAt c
            (lm.1 + ((masterNow + (if s.testMode then 0 else 5)) - lm.2)) ∈ drives := by
  rcases mapM_option_all_some
      (fun cid => ((upsert s.clientsCompletedCurrentStep clientId
          (clientLocalTimestamp, masterReceivedMsgAt)).lookup cid).map (fun lm =>
        DriverMsg.driveAt cid (lm.1 + ((masterNow + waitingPeriodOf s) - lm.2))))
      (List.range s.numDrivers)
      (fun c hc => by
        rcases Option.isSome_iff_exists.mp (hall c (List.mem_range.mp hc)) with ⟨lm, hlm⟩
        simp [hlm]) with ⟨drives, hmapM, hlen, hfwd, _⟩
  refine ⟨drives, ?_, by simpa using hlen, ?_⟩
  · unfold joinpoint_reached
    rw [if_pos hlast, if_neg (by simp only [driverStepReset]; exact hnotfinal), hmapM]
    simp [waitingPeriodOf, driverStepReset]
  · intro c lm hc hlm
    have := hfwd c (List.mem_range.mpr hc)
      (DriverMsg.driveAt c (lm.1 + ((masterNow + waitingPeriodOf s) - lm.2)))
      (by simp [hlm])
    simpa [waitingPeriodOf] using this

/-- C4, witness: two drivers, client 1's report completes a step that is not
the last. -/
theorem driver_last_joinpoint_drives_witness :
    (((⟨2, 2, 1, [(0, 10, 20)], 0, false, true, []⟩ : DriverState).currentlyCompleted + 1 =
        (⟨2, 2, 1, [(0, 10, 20)], 0, false, true, []⟩ : DriverState).numDrivers) ∧
      ((⟨2, 2, 1, [(0, 10, 20)], 0, false, true, []⟩ : DriverState).currentStep + 1 ≠
        (⟨2, 2, 1, [(0, 10, 20)], 0, false, true, []⟩ : DriverState).numberOfSteps) ∧
      (∀ c, c < (⟨2, 2, 1, [(0, 10, 20)], 0, false, true, []⟩ : DriverState).numDrivers →
        ((upsert [(0, 10, 20)] 1 (30, 40)).lookup c).isSome)) ∧
    (∃ drives,
      joinpoint_reached ⟨2, 2, 1, [(0, 10, 20)], 0, false, true, []⟩ 1 30 ⟨1, []⟩ 40 50 =
        some (⟨2, 2, 0, [], 1, false, true, []⟩,
          DriverMsg.taskFinished (if true then (0 : ℚ) else 5) :: drives) ∧
      drives.length = 2 ∧
      ∀ c lm, c < 2 →
        (upsert [(0, 10, 20)] 1 ((30 : ℚ), (40 : ℚ))).lookup c = some lm →
        DriverMsg.driveAt c
          (lm.1 + (((50 : ℚ) + (if true then (0 : ℚ) else 5)) - lm.2)) ∈ drives) := by
  refine ⟨⟨rfl, by decide, ?_⟩, ?_⟩
  · intro c hc
    interval_cases c <;> rfl
  · exact driver_last_joinpoint_drives ⟨2, 2, 1, [(0, 10, 20)], 0, false, true, []⟩
      1 30 ⟨1, []⟩ 40 50 rfl (by decide) (by intro c hc; interval_cases c <;> rfl)

theorem mapM_option_mem {α β : Type} (f : α → Option β) :
    ∀ (l : List α) (bs : List β), l.mapM f = some bs →
      ∀ b ∈ bs, ∃ a ∈ l, f a = some b := by
  intro l
  induction l with
  | nil =>
    intro bs h b hb
    have : bs = [] := by
      have h' : some ([] : List β) = some bs := h
      injection h' with h'
      exact h'.symm
    subst this
    cases hb
  | cons a l ih =>
    intro bs h b hb
    rw [List.mapM_cons] at h
    cases hfa : f a with
    | none => rw [hfa] at h; cases h
    | some b0 =>
      rw [hfa] at h
      simp only [Option.bind_eq_bind, Option.some_bind] at h
      cases hrest : l.mapM f with
      | none => rw [hrest] at h; cases h
      | some bs0 =>
        rw [hrest] at h
        simp only [Option.bind_eq_bind, Option.some_bind] at h
        have hbs : b0 :: bs0 = bs := by
          have h' : some (b0 :: bs0) = some bs := h
          injection h' with h'
        subst hbs
        rcases List.mem_cons.mp hb with rfl | hb'
        · exact ⟨a, List.mem_cons_self a l, hfa⟩
        · rcases ih bs0 hrest b hb' with ⟨a', ha', hfa'⟩
          exact ⟨a', List.mem_cons_of_mem a ha', hfa'⟩

/-- C5: within a step the coordinator sends `CompleteCurrentTask` at most once,
and only under the right conditions.  Precisely: (i) if a call emits
`CompleteCurrentTask` then fewer than `N` drivers have reported, the join
point's completing-client set is non-empty, every client of that set has
already reported (including the one just recorded), the
`complete_current_task_sent` flag was clear, the call sets it, and the message
goes to every driver; (ii) while the flag is set, a non-final report emits no
`CompleteCurrentTask` and keeps the flag; (iii) the report that completes the
step resets the flag and emits no `CompleteCurrentTask`. -/
theorem driver_cct_once_per_step (s : DriverState) (clientId : Nat)
    (clientLocalTimestamp : ℚ) (jp : JoinPoint) (recvAt now : ℚ)
    (s' : DriverState) (msgs : List DriverMsg)
    (hinv : s.currentlyCompleted + 1 ≤ s.numDrivers)
    (hres : joinpoint_reached s clientId clientLocalTimestamp jp recvAt now =
      some (s', msgs)) :
    ((∃ c, DriverMsg.completeCurrentTask c ∈ msgs) →
        s.currentlyCompleted + 1 < s.numDrivers ∧
        jp.clientsExecutingCompletingTask ≠ [] ∧
        (∀ c ∈ jp.clientsExecutingCompletingTask,
          ((upsert s.clientsCompletedCurrentStep clientId
            (clientLocalTimestamp, recvAt)).lookup c).isSome) ∧
        s.completeCurrentTaskSent = false ∧
        s'.completeCurrentTaskSent = true ∧
        msgs = (List.range s.numDrivers).map DriverMsg.completeCurrentTask) ∧
    (s.completeCurrentTaskSent = true → s.currentlyCompleted + 1 ≠ s.numDrivers →
        (∀ c, DriverMsg.completeCurrentTask c ∉ msgs) ∧
        s'.completeCurrentTaskSent = true) ∧
    (s.currentlyCompleted + 1 = s.numDrivers →
        s'.completeCurrentTaskSent = false ∧
        ∀ c, DriverMsg.completeCurrentTask c ∉ msgs) := by
  unfold joinpoint_reached at hres
  by_cases hlast : s.currentlyCompleted + 1 = s.numDrivers
  · rw [if_pos hlast] at hres
    by_cases hfin : (driverStepReset s).currentStep = s.numberOfSteps
    · rw [if_pos hfin] at hres
      injection hres with hres
      injection hres with h1 h2
      subst h1; subst h2
      refine ⟨?_, ?_, ?_⟩
      · rintro ⟨c, hc⟩
        rcases List.mem_singleton.mp hc with h
        cases h
      · intro _ hne
        exact absurd hlast hne
      · intro _
        refine ⟨by simp [driverStepReset], ?_⟩
        intro c hc
        rcases List.mem_singleton.mp hc with h
        cases h
    · rw [if_neg hfin] at hres
      cases hm : (List.range s.numDrivers).mapM (fun cid =>
          ((upsert s.clientsCompletedCurrentStep clientId
              (clientLocalTimestamp, recvAt)).lookup cid).map
            (fun lm => DriverMsg.driveAt cid
              (lm.1 + ((now + waitingPeriodOf s) - lm.2)))) with
      | none => rw [hm] at hres; cases hres
      | some drives =>
        rw [hm] at hres
        injection hres with hres
        injection hres with h1 h2
        subst h1; subst h2
        have hnoCCT : ∀ c, DriverMsg.completeCurrentTask c ∉
            DriverMsg.taskFinished (waitingPeriodOf s) :: drives := by
          intro c hc
          rcases List.mem_cons.mp hc with h | h
          · cases h
          · rcases mapM_option_mem _ _ _ hm _ h with ⟨a, _, hfa⟩
            cases hlk : ((upsert s.clientsCompletedCurrentStep clientId
                (clientLocalTimestamp, recvAt)).lookup a) with
            | none => rw [hlk] at hfa; cases hfa
            | some lm =>
              rw [hlk] at hfa
              injection hfa with hfa
              cases hfa
        refine ⟨?_, ?_, ?_⟩
        · rintro ⟨c, hc⟩
          exact absurd hc (hnoCCT c)
        · intro _ hne
          exact absurd hlast hne
        · intro _
          exact ⟨by simp [driverStepReset], hnoCCT⟩
  · rw [if_neg hlast] at hres
    by_cases hcond : (jp.precedingTaskCompletesParent &&
        !s.completeCurrentTaskSent) = true
    · rw [if_pos hcond] at hres
      rcases Bool.and_eq_true_iff.mp hcond with ⟨hpre, hnot⟩
      have hsentF : s.completeCurrentTaskSent = false := by
        simpa using hnot
      by_cases hall : jp.clientsExecutingCompletingTask.all
          (fun c => ((upsert s.clientsCompletedCurrentStep clientId
            (clientLocalTimestamp, recvAt)).lookup c).isSome) = true
      · rw [if_pos hall] at hres
        injection hres with hres
        injection hres with h1 h2
        subst h1; subst h2
        refine ⟨?_, ?_, ?_⟩
        · intro _
          refine ⟨by omega, ?_, ?_, hsentF, by simp, rfl⟩
          · have hlen : 0 < jp.clientsExecutingCompletingTask.length :=
              of_decide_eq_true hpre
            intro hnil
            rw [hnil] at hlen
            cases hlen
          · intro c hcmem
            exact List.all_eq_true.mp hall c hcmem
        · intro hsent _
          rw [hsent] at hsentF
          cases hsentF
        · intro h
          exact absurd h hlast
      · rw [if_neg hall] at hres
        injection hres with hres
        injection hres with h1 h2
        subst h1; subst h2
        refine ⟨?_, ?_, ?_⟩
        · rintro ⟨c, hc⟩
          cases hc
        · intro hsent _
          exact ⟨(fun c hc => by cases hc), (by simp [driverRecord, hsent])⟩
        · intro h
          exact absurd h hlast
    · rw [if_neg hcond] at hres
      injection hres with hres
      injection hres with h1 h2
      subst h1; subst h2
      refine ⟨?_, ?_, ?_⟩
      · rintro ⟨c, hc⟩
        cases hc
      · intro hsent _
        exact ⟨(fun c hc => by cases hc), (by simp [driverRecord, hsent])⟩
      · intro h
        exact absurd h hlast

/-- C5, witness: two drivers; the first report arrives from the single
completing client of the join point, so the broadcast goes out and the flag
is set. -/
theorem driver_cct_once_per_step_witness :
    (((⟨2, 2, 0, [], 0, false, false, []⟩ : DriverState).currentlyCompleted + 1 ≤
        (⟨2, 2, 0, [], 0, false, false, []⟩ : DriverState).numDrivers) ∧
      joinpoint_reached ⟨2, 2, 0, [], 0, false, false, []⟩ 0 0 ⟨1, [0]⟩ 0 0 =
        some (⟨2, 2, 1, [(0, 0, 0)], 0, true, false, []⟩,
          [DriverMsg.completeCurrentTask 0, DriverMsg.completeCurrentTask 1])) ∧
    ((⟨2, 2, 0, [], 0, false, false, []⟩ : DriverState).currentlyCompleted + 1 <
        (⟨2, 2, 0, [], 0, false, false, []⟩ : DriverState).numDrivers ∧
      (⟨1, [0]⟩ : JoinPoint).clientsExecutingCompletingTask ≠ [] ∧
      (∀ c ∈ (⟨1, [0]⟩ : JoinPoint).clientsExecutingCompletingTask,
        ((upsert [] 0 ((0 : ℚ), (0 : ℚ))).lookup c).isSome) ∧
      (⟨2, 2, 0, [], 0, false, false, []⟩ : DriverState).completeCurrentTaskSent = false ∧
      (⟨2, 2, 1, [(0, 0, 0)], 0, true, false, []⟩ : DriverState).completeCurrentTaskSent = true ∧
      [DriverMsg.completeCurrentTask 0, DriverMsg.completeCurrentTask 1] =
        (List.range (⟨2, 2, 0, [], 0, false, false, []⟩ : DriverState).numDrivers).map
          DriverMsg.completeCurrentTask) := by
  have happ := driver_cct_once_per_step ⟨2, 2, 0, [], 0, false, false, []⟩ 0 0
    ⟨1, [0]⟩ 0 0 ⟨2, 2, 1, [(0, 0, 0)], 0, true, false, []⟩
    [DriverMsg.completeCurrentTask 0, DriverMsg.completeCurrentTask 1]
    (by norm_num) rfl
  exact ⟨⟨by norm_num, rfl⟩,
    happ.1 ⟨0, List.mem_cons_self _ _⟩⟩

/-!
## Worker (`LoadGenerator`, C10)

The worker state keeps the fields its `CompleteCurrentTask` handler and
`drive` read or write: the task column, the advancing index, the current
cell, and the two shared flags.  (The executor future, sampler, Elasticsearch
client and actor plumbing are external.)
-/

/-- The `LoadGenerator` state relevant to the claims. -/
structure WorkerState where
  tasks : List Cell
  currentTaskIndex : Nat
  currentTask : Option Cell
  cancel : Bool
  complete : Bool
deriving DecidableEq

/-- `LoadGenerator.at_joinpoint`: `isinstance(self.current_task, JoinPoint)`. -/
def WorkerState.at_joinpoint (s : WorkerState) : Bool :=
  match s.currentTask with
  | some (Cell.joinPoint _) => true
  | _ => false

/-- The `CompleteCurrentTask` branch of `LoadGenerator.receiveMessage`: when
the worker is at a join point the message is logged and ignored; otherwise
the shared `complete` flag is set. -/
def receiveCompleteCurrentTask (s : WorkerState) : WorkerState :=
  if s.at_joinpoint then s else { s with complete := true }

/-- `current_task_and_advance` iterated over `None` (idle) cells: the first
non-idle cell at or after `idx` and the index just past it; `none` when the
column is exhausted (the Python code would raise an `IndexError`). -/
def advanceToCell (tasks : List Cell) (idx : Nat) : Option (Cell × Nat) :=
  if h : idx < tasks.length then
    match tasks[idx] with
    | Cell.idle => advanceToCell tasks (idx + 1)
    | c => some (c, idx + 1)
  else none
termination_by tasks.length - idx

/-- What one call to `LoadGenerator.drive` does with the cell it lands on. -/
inductive DriveResult where
  | atJoinPoint : JoinPoint → DriveResult
  | executing : Task → DriveResult
  | skipped : Task → DriveResult
deriving DecidableEq

/-- `LoadGenerator.drive`: skip idle cells; at a `JoinPoint` await the pending
executor, flush samples, clear both shared flags and report
`JoinPointReached`; at a `Task`, skip it when the `complete` flag is already
set, otherwise start an `Executor` for it. -/
def drive (s : WorkerState) : Option (WorkerState × DriveResult) :=
  match advanceToCell s.tasks s.currentTaskIndex with
  | none => none
  | some (Cell.joinPoint jp, idx) =>
    some ({ s with currentTaskIndex := idx
                   currentTask := some (Cell.joinPoint jp)
                   cancel := false
                   complete := false },
      DriveResult.atJoinPoint jp)
  | some (Cell.task t, idx) =>
    if s.complete then
      some ({ s with currentTaskIndex := idx, currentTask := some (Cell.task t) },
        DriveResult.skipped t)
    else
      some ({ s with currentTaskIndex := idx, currentTask := some (Cell.task t) },
        DriveResult.executing t)
  | some (Cell.idle, _) => none  -- unreachable: advanceToCell skips idle cells

/-- C10: a `CompleteCurrentTask` received while the worker sits at a join
point is ignored — the whole worker state (in particular the shared
`complete` flag) is unchanged — and, the flag being still clear, the next
`drive` never skips the task after the barrier. -/
theorem worker_cct_ignored_at_joinpoint (s : WorkerState)
    (h : s.at_joinpoint = true) :
    receiveCompleteCurrentTask s = s ∧
    (s.complete = false →
      ∀ s2 r, drive (receiveCompleteCurrentTask s) = some (s2, r) →
        ∀ t : Task, r ≠ DriveResult.skipped t) := by
  have hrecv : receiveCompleteCurrentTask s = s := by
    unfold receiveCompleteCurrentTask
    rw [if_pos h]
  refine ⟨hrecv, ?_⟩
  intro hc s2 r hdrive t
  rw [hrecv] at hdrive
  unfold drive at hdrive
  cases hadv : advanceToCell s.tasks s.currentTaskIndex with
  | none => rw [hadv] at hdrive; cases hdrive
  | some p =>
    rw [hadv] at hdrive
    rcases p with ⟨c, idx⟩
    cases c with
    | joinPoint jp =>
      injection hdrive with hdrive
      injection hdrive with h1 h2
      subst h2
      simp
    | task t' =>
      rw [hc] at hdrive
      simp only [Bool.false_eq_true, if_false] at hdrive
      injection hdrive with hdrive
      injection hdrive with h1 h2
      subst h2
      simp
    | idle => cases hdrive

/-- C10, witness: a worker whose current cell is the join point between two
tasks. -/
theorem worker_cct_ignored_at_joinpoint_witness :
    ((WorkerState.mk
        [Cell.joinPoint ⟨0, []⟩, Cell.task ⟨1, 1, false, 0, 1, none, none⟩,
          Cell.joinPoint ⟨1, []⟩]
        1 (some (Cell.joinPoint ⟨0, []⟩)) false false).at_joinpoint = true ∧
      (WorkerState.mk
        [Cell.joinPoint ⟨0, []⟩, Cell.task ⟨1, 1, false, 0, 1, none, none⟩,
          Cell.joinPoint ⟨1, []⟩]
        1 (some (Cell.joinPoint ⟨0, []⟩)) false false).complete = false) ∧
    receiveCompleteCurrentTask
        (WorkerState.mk
          [Cell.joinPoint ⟨0, []⟩, Cell.task ⟨1, 1, false, 0, 1, none, none⟩,
            Cell.joinPoint ⟨1, []⟩]
          1 (some (Cell.joinPoint ⟨0, []⟩)) false false) =
      WorkerState.mk
        [Cell.joinPoint ⟨0, []⟩, Cell.task ⟨1, 1, false, 0, 1, none, none⟩,
          Cell.joinPoint ⟨1, []⟩]
        1 (some (Cell.joinPoint ⟨0, []⟩)) false false ∧
    (∀ s2 r, drive (receiveCompleteCurrentTask
        (WorkerState.mk
          [Cell.joinPoint ⟨0, []⟩, Cell.task ⟨1, 1, false, 0, 1, none, none⟩,
            Cell.joinPoint ⟨1, []⟩]
          1 (some (Cell.joinPoint ⟨0, []⟩)) false false)) = some (s2, r) →
      ∀ t : Task, r ≠ DriveResult.skipped t) := by
  have happ := worker_cct_ignored_at_joinpoint
    (WorkerState.mk
      [Cell.joinPoint ⟨0, []⟩, Cell.task ⟨1, 1, false, 0, 1, none, none⟩,
        Cell.joinPoint ⟨1, []⟩]
      1 (some (Cell.joinPoint ⟨0, []⟩)) false false) rfl
  exact ⟨⟨rfl, rfl⟩, happ.1, happ.2 rfl⟩

end Rally
